import Mathlib

set_option maxRecDepth 200000

/-!
Verification development for the encoder repository.

The JavaScript program is embedded shallowly:

* JavaScript strings are modelled as lists of UTF-16 code units
  (natural numbers; every unit produced by the program is below 65536).
* JavaScript 32-bit wrapping arithmetic (the `x & 0xFFFFFFFF` / `x << 5`
  idiom) is modelled on the twos-complement bit pattern, i.e. on natural
  numbers modulo 2^32; only the bit pattern is ever observed by the
  program (through `& 0xFF` and further shifts), so this is faithful.
* Confidence scores in the detection engine are sums of the literals
  0.5, 0.1, 0.2, 0.3 clamped at 1.0; they are modelled exactly in tenths
  (naturals 0..10).  All comparisons performed by the program on the
  concrete runs proved below are between scores that differ by at least
  one tenth, where IEEE-double and exact-tenths comparison agree.
* Fallible operations return Option or Except values instead of throwing.
-/

namespace Encoder

/-- Strings of the JavaScript program, as lists of UTF-16 code units. -/
abbrev JStr := List Nat

/-- Code units of a Lean string literal, used to write concrete inputs. -/
def strCodes (s : String) : JStr := s.data.map Char.toNat

/-! ## Substitution table
script.js, createSubstitutionMatrix: matrix[i] = (i * 17 + 42) % 256. -/

def substitutionMatrix : List Nat :=
  (List.range 256).map (fun i => (i * 17 + 42) % 256)

/-- Inverse table, script.js createInverseMatrix: a fresh array of 256 slots
filled by scatter assignment inverse[substitutionMatrix[i]] = i.  The unwritten
holes of the JavaScript array are modelled as 0; since the table is onto, every
slot is written and the initial value is irrelevant. -/
def inverseMatrix : List Nat :=
  (List.range 256).foldl (fun inv i => inv.set (substitutionMatrix.getD i 0) i)
    (List.replicate 256 0)

/-! ## Key derivation
script.js, keyDerivation.  JavaScript evaluates
hash = ((hash << 5) + hash) + c; hash = hash & 0xFFFFFFFF.
On bit patterns this is h := (h * 32 % 2^32 + h + c) % 2^32: the shift is a
ToInt32 wrap of h * 32, the additions are exact doubles, and the mask reduces
the sum to its 32-bit pattern again. -/

def U32 : Nat := 4294967296

def djb2Step (h c : Nat) : Nat := (h * 32 % U32 + h + c) % U32

/-- Generator loop of keyDerivation: for i in 0..255,
hash = ((hash << 5) + hash) + i + 7919 masked to 32 bits, emit hash & 0xFF. -/
def keystreamGen : Nat → Nat → Nat → List Nat
  | _, _, 0 => []
  | h, i, n + 1 =>
    let h2 := (h * 32 % U32 + h + (i + 7919)) % U32
    (h2 % 256) :: keystreamGen h2 (i + 1) n

/-- script.js keyDerivation: throws when the key is empty, otherwise folds the
DJB2-style hash (initial value 5381) over the key characters and generates 256
key bytes. -/
def keyDerivation (key : JStr) : Option (List Nat) :=
  if key = [] then none
  else some (keystreamGen (key.foldl djb2Step 5381) 0 256)

/-! ## Per-byte scrambling (script.js scrambleByte / unscrambleByte) -/

/-- Rotate-left step of scrambleByte:
((result << r) | (result >> (8 - r))) & 0xFF. -/
def rotl8 (v a : Nat) : Nat := ((v <<< a) ||| (v >>> (8 - a))) &&& 255

/-- Rotate-right step of unscrambleByte:
((result >> r) | (result << (8 - r))) & 0xFF. -/
def rotr8 (v a : Nat) : Nat := ((v >>> a) ||| (v <<< (8 - a))) &&& 255

/-- script.js scrambleByte: substitution, key XOR, position rotate-left,
key addition masked to a byte. -/
def scrambleByte (b p : Nat) (dk : List Nat) : Nat :=
  (rotl8 (substitutionMatrix.getD b 0 ^^^ dk.getD (p % dk.length) 0) (p % 8) +
      dk.getD (p * 7 % dk.length) 0) &&& 255

/-- script.js unscrambleByte: key subtraction ((byte - k + 256) & 0xFF, which
on a possibly negative 32-bit value is the Euclidean remainder modulo 256),
rotate-right, key XOR, inverse substitution.  The input byte is an integer
because hexToBytes parses with JavaScript parseInt, which can in principle
return negative values. -/
def unscrambleByte (b : Int) (p : Nat) (dk : List Nat) : Nat :=
  inverseMatrix.getD
    (rotr8 (((b - (dk.getD (p * 7 % dk.length) 0 : Nat) + 256) % 256).toNat) (p % 8) ^^^
      dk.getD (p % dk.length) 0) 0

/-! ## Hex rendering and checksum (script.js bytesToHex / calculateChecksum) -/

/-- Lowercase hexadecimal digit character for a value below 16. -/
def hexDigitChar (d : Nat) : Nat := if d < 10 then 48 + d else 87 + d

/-- Minimal big-endian hexadecimal digits of n, with explicit fuel so that the
definition is structurally recursive (fuel n is always sufficient because the
argument is divided by 16 at every step).  natToHexAux f 0 = [] for every f. -/
def natToHexAux : Nat → Nat → List Nat
  | 0, _ => []
  | _ + 1, 0 => []
  | f + 1, n + 1 => natToHexAux f ((n + 1) / 16) ++ [hexDigitChar ((n + 1) % 16)]

/-- JavaScript n.toString(16) for a natural number: minimal lowercase hex
digits, and the single digit 0 for zero. -/
def jsToStringHex (n : Nat) : JStr :=
  if n = 0 then [48] else natToHexAux n n

/-- JavaScript s.padStart(len, c). -/
def padStart (len pad : Nat) (s : JStr) : JStr :=
  List.replicate (len - s.length) pad ++ s

/-- One step of the checksum character fold:
checksum = (checksum * 31 + charCode) % 65536. -/
def polyStep (c ch : Nat) : Nat := (c * 31 + ch) % 65536

/-- Numeric value of script.js calculateChecksum before hex rendering: fold the
character polynomial over the data, then add derivedKey[i] * (i + 1) for
i < min(derivedKey.length, 16), modulo 65536. -/
def checksumValue (data : JStr) (dk : List Nat) : Nat :=
  (List.range (min dk.length 16)).foldl
    (fun c i => (c + dk.getD i 0 * (i + 1)) % 65536) (data.foldl polyStep 0)

/-- script.js calculateChecksum: the checksum value rendered as
toString(16) padded on the left with zero digits to four characters. -/
def calculateChecksum (data : JStr) (dk : List Nat) : JStr :=
  padStart 4 48 (jsToStringHex (checksumValue data dk))

/-- One byte rendered with toString(16) padded on the left with zero digits to two characters. -/
def byteToHexPair (b : Nat) : JStr := padStart 2 48 (jsToStringHex b)

/-- Hex body of a frame: the concatenated two-digit renderings of the bytes. -/
def bytesHex (bytes : List Nat) : JStr := bytes.flatMap byteToHexPair

/-- script.js bytesToHex: hex body, a dot (code 46), and the checksum. -/
def bytesToHex (bytes : List Nat) (dk : List Nat) : JStr :=
  bytesHex bytes ++ 46 :: calculateChecksum (bytesHex bytes) dk

/-! ## Frame parsing (script.js hexToBytes) -/

/-- Split accumulator for jsSplit. -/
def splitSepAux (sep : Nat) : List Nat → List Nat → List JStr
  | [], cur => [cur.reverse]
  | c :: rest, cur =>
    if c = sep then cur.reverse :: splitSepAux sep rest []
    else splitSepAux sep rest (c :: cur)

/-- JavaScript s.split(sep) for a single-character separator. -/
def jsSplit (sep : Nat) (s : JStr) : List JStr := splitSepAux sep s []

/-- JavaScript whitespace class (the regexp \s and the characters trimmed by
String.prototype.trim). -/
def isJsWhitespace (c : Nat) : Bool :=
  c = 9 || c = 10 || c = 11 || c = 12 || c = 13 || c = 32 || c = 160 || c = 5760 ||
  (8192 ≤ c && c ≤ 8202) || c = 8232 || c = 8233 || c = 8239 || c = 8287 ||
  c = 12288 || c = 65279

/-- ASCII hexadecimal digit test, the class [0-9a-fA-F]. -/
def isAsciiHexDigit (c : Nat) : Bool :=
  (48 ≤ c && c ≤ 57) || (97 ≤ c && c ≤ 102) || (65 ≤ c && c ≤ 70)

/-- Value of an ASCII hexadecimal digit. -/
def hexDigitVal (c : Nat) : Nat :=
  if 48 ≤ c && c ≤ 57 then c - 48
  else if 97 ≤ c && c ≤ 102 then c - 87
  else c - 55

/-- Longest leading run of hexadecimal digits. -/
def takeHexDigits : List Nat → List Nat
  | [] => []
  | c :: r => if isAsciiHexDigit c then c :: takeHexDigits r else []

/-- Value of a list of hexadecimal digits, most significant first. -/
def hexDigitsVal (l : List Nat) : Nat := l.foldl (fun a c => a * 16 + hexDigitVal c) 0

/-- JavaScript parseInt(s, 16): skip leading whitespace, read an optional
sign, skip an optional 0x / 0X prefix, then read the longest prefix of
hexadecimal digits; NaN (here: none) when that prefix is empty.  Trailing
characters are ignored. -/
def jsParseIntHex (s : JStr) : Option Int :=
  let t := s.dropWhile (fun c => isJsWhitespace c)
  let signAndRest : Int × JStr :=
    match t with
    | 43 :: r => (1, r)
    | 45 :: r => (-1, r)
    | _ => (1, t)
  let t3 : JStr :=
    match signAndRest.2 with
    | 48 :: 120 :: r => r
    | 48 :: 88 :: r => r
    | _ => signAndRest.2
  let ds := takeHexDigits t3
  if ds = [] then none else some (signAndRest.1 * hexDigitsVal ds)

/-- Pairwise parse of the hex body: hexToBytes walks the string two characters
at a time and parses each pair with parseInt(pair, 16), failing on NaN. -/
def parseHexPairs : JStr → Option (List Int)
  | [] => some []
  | [c] =>
    match jsParseIntHex [c] with
    | none => none
    | some b => some [b]
  | c1 :: c2 :: rest =>
    match jsParseIntHex [c1, c2] with
    | none => none
    | some b =>
      match parseHexPairs rest with
      | none => none
      | some bs => some (b :: bs)

/-- Failure cases of script.js hexToBytes, in source order: wrong number of
dot-separated parts, checksum mismatch, odd hex length, unparsable pair. -/
inductive FrameError
  | badShape
  | checksumMismatch
  | oddLength
  | badHexDigit
deriving DecidableEq, Repr

/-- script.js hexToBytes: split on the dot, require exactly two parts,
recompute and compare the checksum, require even hex length, then parse the
pairs. -/
def hexToBytes (encoded : JStr) (dk : List Nat) : Except FrameError (List Int) :=
  let parts := jsSplit 46 encoded
  if parts.length ≠ 2 then .error .badShape
  else
    let hexData := parts.getD 0 []
    let checksum := parts.getD 1 []
    if checksum ≠ calculateChecksum hexData dk then .error .checksumMismatch
    else if hexData.length % 2 ≠ 0 then .error .oddLength
    else
      match parseHexPairs hexData with
      | none => .error .badHexDigit
      | some bs => .ok bs

/-! ## Text-level encode / decode (script.js encode / decode)
The text arguments are represented by their UTF-8 byte sequences (what
TextEncoder().encode produces and TextDecoder().decode consumes); a text is
empty exactly when its byte sequence is empty. -/

inductive CipherError
  | invalidKey
  | decodeFailed
deriving DecidableEq, Repr

/-- script.js encode: empty text short-circuits to the empty string before any
key handling; otherwise derive the key, scramble every byte at its position
and render the frame. -/
def encode (textBytes : List Nat) (key : JStr) : Except CipherError JStr :=
  if textBytes = [] then .ok []
  else
    match keyDerivation key with
    | none => .error .invalidKey
    | some dk =>
      .ok (bytesToHex ((textBytes.enum).map (fun p => scrambleByte p.2 p.1 dk)) dk)

/-- script.js decode: empty input short-circuits to the empty string; any
failure inside the try block (key derivation or frame parsing) is rethrown as
the generic decoding failure. -/
def decode (encodedText : JStr) (key : JStr) : Except CipherError (List Nat) :=
  if encodedText = [] then .ok []
  else
    match keyDerivation key with
    | none => .error .decodeFailed
    | some dk =>
      match hexToBytes encodedText dk with
      | .error _ => .error .decodeFailed
      | .ok bs => .ok ((bs.enum).map (fun p => unscrambleByte p.2 p.1 dk))

/-! ## Variant key derivations used to settle the key-derivation claims -/

/-- Modelled from the spec: character fold written there as
acc = acc*33 + acc + charCode, truncated to 32 bits. -/
def djb2StepSpecC5 (h c : Nat) : Nat := (h * 33 + h + c) % U32

/-- Modelled from the spec: generator update written there as
acc = acc*33 + acc + i + 7919, truncated to 32 bits. -/
def keystreamGenSpecC5 : Nat → Nat → Nat → List Nat
  | _, _, 0 => []
  | h, i, n + 1 =>
    let h2 := (h * 33 + h + (i + 7919)) % U32
    (h2 % 256) :: keystreamGenSpecC5 h2 (i + 1) n

/-- Modelled from the spec: key derivation with the literal formula of the
claim, acc*33 + acc + charCode, for comparison against the source. -/
def keyDerivationSpecC5 (key : JStr) : Option (List Nat) :=
  if key = [] then none
  else some (keystreamGenSpecC5 (key.foldl djb2StepSpecC5 5381) 0 256)

/-- Character fold with the corrected formula acc*33 + charCode. -/
def djb2StepAmended (h c : Nat) : Nat := (h * 33 + c) % U32

/-- Generator with the corrected formula acc*33 + i + 7919. -/
def keystreamGenAmended : Nat → Nat → Nat → List Nat
  | _, _, 0 => []
  | h, i, n + 1 =>
    let h2 := (h * 33 + (i + 7919)) % U32
    (h2 % 256) :: keystreamGenAmended h2 (i + 1) n

/-- Key derivation with the corrected mixing formula. -/
def keyDerivationAmended (key : JStr) : Option (List Nat) :=
  if key = [] then none
  else some (keystreamGenAmended (key.foldl djb2StepAmended 5381) 0 256)

/-! ## Basic lemmas -/

theorem getD_lt_of_forall : ∀ (l : List Nat), (∀ x ∈ l, x < 256) → ∀ n, l.getD n 0 < 256
  | [], _, _ => by simp [List.getD]
  | x :: _, h, 0 => by simpa using h x (by simp)
  | _ :: xs, h, n + 1 => by
    simpa using getD_lt_of_forall xs (fun y hy => h y (by simp [hy])) n

theorem getD_map_range {f : Nat → Nat} {b : Nat} (hb : b < 256) :
    ((List.range 256).map f).getD b 0 = f b := by
  simp [List.getD, List.getElem?_map, List.getElem?_range, hb]

theorem keystreamGen_length : ∀ (n h i : Nat), (keystreamGen h i n).length = n
  | 0, _, _ => rfl
  | n + 1, h, i => by simp [keystreamGen, keystreamGen_length n]

theorem keystreamGen_all_lt : ∀ (n h i : Nat), ∀ b ∈ keystreamGen h i n, b < 256
  | 0, _, _ => by simp [keystreamGen]
  | n + 1, h, i => by
    simp only [keystreamGen, List.mem_cons]
    rintro b (rfl | hb)
    · exact Nat.mod_lt _ (by norm_num)
    · exact keystreamGen_all_lt n _ _ b hb

theorem djb2core (h c : Nat) : (h * 32 % U32 + h + c) % U32 = (h * 33 + c) % U32 := by
  rw [Nat.add_assoc, Nat.mod_add_mod]
  congr 1
  ring

theorem djb2Step_eq_amended : djb2Step = djb2StepAmended := by
  funext h c
  exact djb2core h c

theorem keystreamGen_eq_amended : ∀ (n h i : Nat),
    keystreamGen h i n = keystreamGenAmended h i n
  | 0, _, _ => rfl
  | n + 1, h, i => by
    simp only [keystreamGen, keystreamGenAmended, djb2core]
    exact congrArg _ (keystreamGen_eq_amended n _ _)

/-! ## Claim C6 -/

/-- C6: key derivation is deterministic (it is a pure function of the key,
so recomputation is definitionally equal), and for every non-empty passphrase
the derived keystream has length exactly 256 with every byte below 256. -/
theorem keyDerivation_deterministic_len256 (key : JStr) (hk : key ≠ []) :
    keyDerivation key = keyDerivation key ∧
    ∃ ks, keyDerivation key = some ks ∧ ks.length = 256 ∧ ∀ b ∈ ks, b < 256 := by
  refine ⟨rfl, keystreamGen (key.foldl djb2Step 5381) 0 256, ?_,
    keystreamGen_length _ _ _, keystreamGen_all_lt _ _ _⟩
  simp [keyDerivation, hk]

/-- Witness for C6 at the concrete passphrase "a". -/
theorem keyDerivation_deterministic_len256_witness :
    strCodes "a" ≠ [] ∧
    (keyDerivation (strCodes "a") = keyDerivation (strCodes "a") ∧
      ∃ ks, keyDerivation (strCodes "a") = some ks ∧ ks.length = 256 ∧ ∀ b ∈ ks, b < 256) :=
  ⟨by decide, keyDerivation_deterministic_len256 (strCodes "a") (by decide)⟩

/-! ## Claim C5 -/

/-- C5 counterexample: the claimed formula acc*33 + acc + charCode does not
reproduce the source key derivation; already for the passphrase "a" the
derived keystreams differ. -/
theorem keyDerivation_formula_counterexample :
    keyDerivation (strCodes "a") ≠ keyDerivationSpecC5 (strCodes "a") := by decide

/-- C5 amended: key derivation follows the algorithm with the fold
acc = acc*33 + charCode and generator update acc = acc*33 + i + 7919,
both truncated to 32 bits, with keystream[i] the low byte. -/
theorem keyDerivation_follows_amended_formula (key : JStr) :
    keyDerivation key = keyDerivationAmended key := by
  by_cases hk : key = []
  · simp [keyDerivation, keyDerivationAmended, hk]
  · simp only [keyDerivation, keyDerivationAmended, hk, if_neg]
    rw [djb2Step_eq_amended]
    exact congrArg some (keystreamGen_eq_amended 256 _ 0)

/-! ## Claim C7 -/

/-- Closed form of the scatter-assigned inverse table: 241 is the inverse of
17 modulo 256 and 214 is -42. -/
theorem inverseMatrix_eq :
    inverseMatrix = (List.range 256).map (fun j => (j + 214) * 241 % 256) := by decide

/-- Lookup of the substitution table at a byte value. -/
theorem substGetD {b : Nat} (hb : b < 256) :
    substitutionMatrix.getD b 0 = (b * 17 + 42) % 256 := by
  simpa [substitutionMatrix] using
    getD_map_range (f := fun i => (i * 17 + 42) % 256) hb

/-- The inverse table undoes the substitution table on every byte value. -/
theorem inverse_undoes (b : Nat) (hb : b < 256) :
    inverseMatrix.getD (substitutionMatrix.getD b 0) 0 = b := by
  have h2 : (b * 17 + 42) % 256 < 256 := Nat.mod_lt _ (by norm_num)
  have h3 : ∀ x, x < 256 → ((x * 17 + 42) % 256 + 214) * 241 % 256 = x := by decide
  rw [substGetD hb, inverseMatrix_eq, getD_map_range h2]
  exact h3 b hb

/-- C7: the substitution table is a permutation of 0..255 and the
scatter-assigned inverse table undoes it on every byte value. -/
theorem substitution_bijection :
    List.Perm substitutionMatrix (List.range 256) ∧
    ∀ b : Nat, b < 256 → inverseMatrix.getD (substitutionMatrix.getD b 0) 0 = b :=
  ⟨by decide, inverse_undoes⟩

/-- Witness for C7 at the byte value 200. -/
theorem substitution_bijection_witness :
    (200 : Nat) < 256 ∧ inverseMatrix.getD (substitutionMatrix.getD 200 0) 0 = 200 :=
  ⟨by decide, substitution_bijection.2 200 (by decide)⟩

/-! ## Claim C10 -/

/-- C10: encoding or decoding an empty text returns the empty string at once,
for every key including the empty one, so no key validation, key derivation or
checksum verification takes place. -/
theorem encode_decode_empty (key : JStr) :
    encode [] key = .ok [] ∧ decode [] key = .ok [] := ⟨rfl, rfl⟩

/-! ## Round-trip of the per-byte layers -/

theorem and255_eq_mod (x : Nat) : x &&& 255 = x % 256 := by
  have h : (255 : Nat) = 2 ^ 8 - 1 := by norm_num
  rw [h, Nat.and_pow_two_sub_one_eq_mod]

theorem rotl8_lt (v a : Nat) : rotl8 v a < 256 :=
  Nat.lt_succ_of_le Nat.and_le_right

theorem scrambleByte_lt (b p : Nat) (dk : List Nat) : scrambleByte b p dk < 256 :=
  Nat.lt_succ_of_le Nat.and_le_right

theorem rot_inv : ∀ v < 256, ∀ a < 8, rotr8 (rotl8 v a) a = v := by decide

theorem sub_add_mod_roundtrip (r k : Nat) (hr : r < 256) :
    (((((r + k) % 256 : Nat) : Int) - (k : Nat) + 256) % 256).toNat = r := by
  omega

/-- Unscrambling inverts scrambling at every position, for any key material
whose bytes are below 256. -/
theorem unscramble_scramble (b p : Nat) (dk : List Nat)
    (hb : b < 256) (hdk : ∀ x ∈ dk, x < 256) :
    unscrambleByte ((scrambleByte b p dk : Nat) : Int) p dk = b := by
  have hk1 : dk.getD (p % dk.length) 0 < 256 := getD_lt_of_forall dk hdk _
  have hk2 : dk.getD (p * 7 % dk.length) 0 < 256 := getD_lt_of_forall dk hdk _
  have hs : substitutionMatrix.getD b 0 < 256 := by
    rw [substGetD hb]; exact Nat.mod_lt _ (by norm_num)
  have hx : substitutionMatrix.getD b 0 ^^^ dk.getD (p % dk.length) 0 < 256 := by
    simpa using Nat.xor_lt_two_pow (n := 8) hs hk1
  have hr : rotl8 (substitutionMatrix.getD b 0 ^^^ dk.getD (p % dk.length) 0) (p % 8) < 256 :=
    rotl8_lt _ _
  unfold scrambleByte unscrambleByte
  rw [and255_eq_mod, sub_add_mod_roundtrip _ _ hr,
    rot_inv _ hx _ (Nat.mod_lt p (by norm_num)), Nat.xor_cancel_right]
  exact inverse_undoes b hb

/-! ## Characters appearing in rendered frames -/

theorem hexDigitChar_facts : ∀ d, d < 16 → hexDigitChar d ≠ 46 ∧ hexDigitChar d < 65536 := by
  decide

theorem natToHexAux_chars : ∀ (f n : Nat), ∀ c ∈ natToHexAux f n, c ≠ 46 ∧ c < 65536
  | 0, _ => by simp [natToHexAux]
  | _ + 1, 0 => by simp [natToHexAux]
  | f + 1, n + 1 => by
    intro c hc
    rcases List.mem_append.1 hc with h | h
    · exact natToHexAux_chars f ((n + 1) / 16) c h
    · have hd : c = hexDigitChar ((n + 1) % 16) := by simpa using h
      subst hd
      exact hexDigitChar_facts _ (Nat.mod_lt _ (by norm_num))

theorem jsToStringHex_chars (n : Nat) : ∀ c ∈ jsToStringHex n, c ≠ 46 ∧ c < 65536 := by
  intro c hc
  by_cases h : n = 0
  · simp [jsToStringHex, h] at hc
    omega
  · exact natToHexAux_chars n n c (by simpa [jsToStringHex, h] using hc)

theorem padStart_chars {s : JStr} {len pad : Nat}
    (hp : pad ≠ 46 ∧ pad < 65536) (hs : ∀ c ∈ s, c ≠ 46 ∧ c < 65536) :
    ∀ c ∈ padStart len pad s, c ≠ 46 ∧ c < 65536 := by
  intro c hc
  rcases List.mem_append.1 hc with h | h
  · rcases List.eq_of_mem_replicate h with rfl
    exact hp
  · exact hs c h

theorem byteToHexPair_chars (b : Nat) : ∀ c ∈ byteToHexPair b, c ≠ 46 ∧ c < 65536 :=
  padStart_chars (by norm_num) (jsToStringHex_chars b)

theorem bytesHex_chars (bytes : List Nat) : ∀ c ∈ bytesHex bytes, c ≠ 46 ∧ c < 65536 := by
  intro c hc
  rcases List.mem_flatMap.1 hc with ⟨b, _, hcb⟩
  exact byteToHexPair_chars b c hcb

theorem calculateChecksum_chars (data : JStr) (dk : List Nat) :
    ∀ c ∈ calculateChecksum data dk, c ≠ 46 ∧ c < 65536 :=
  padStart_chars (by norm_num) (jsToStringHex_chars _)

/-! ## Splitting a frame on the dot -/

theorem splitSepAux_no_sep : ∀ (s acc : List Nat), (∀ c ∈ s, c ≠ 46) →
    splitSepAux 46 s acc = [acc.reverse ++ s]
  | [], acc, _ => by simp [splitSepAux]
  | c :: rest, acc, h => by
    have hc : c ≠ 46 := h c (by simp)
    simp only [splitSepAux, if_neg hc]
    rw [splitSepAux_no_sep rest (c :: acc) (fun x hx => h x (by simp [hx]))]
    simp

theorem splitSepAux_dot (b : JStr) (hb : ∀ c ∈ b, c ≠ 46) :
    ∀ (a acc : List Nat), (∀ c ∈ a, c ≠ 46) →
      splitSepAux 46 (a ++ 46 :: b) acc = (acc.reverse ++ a) :: [b]
  | [], acc, _ => by
    simp only [List.nil_append, splitSepAux, if_pos rfl]
    rw [splitSepAux_no_sep b [] hb]
    simp
  | c :: a, acc, h => by
    have hc : c ≠ 46 := h c (by simp)
    simp only [List.cons_append, splitSepAux, if_neg hc, List.append_eq]
    rw [splitSepAux_dot b hb a (c :: acc) (fun x hx => h x (by simp [hx]))]
    simp

theorem jsSplit_dot (a b : JStr) (ha : ∀ c ∈ a, c ≠ 46) (hb : ∀ c ∈ b, c ≠ 46) :
    jsSplit 46 (a ++ 46 :: b) = [a, b] := by
  unfold jsSplit
  rw [splitSepAux_dot b hb a [] ha]
  simp

/-! ## Parsing back the rendered hex body -/

set_option maxHeartbeats 2000000 in
theorem parse_pair : ∀ b, b < 256 → jsParseIntHex (byteToHexPair b) = some ((b : Nat) : Int) := by
  decide

set_option maxHeartbeats 1000000 in
theorem byteToHexPair_len : ∀ b, b < 256 → (byteToHexPair b).length = 2 := by
  decide

theorem parseHexPairs_bytesHex : ∀ (bytes : List Nat), (∀ b ∈ bytes, b < 256) →
    parseHexPairs (bytesHex bytes) = some (bytes.map (fun b => ((b : Nat) : Int)))
  | [], _ => rfl
  | b :: rest, h => by
    have hb : b < 256 := h b (by simp)
    have hrest : ∀ x ∈ rest, x < 256 := fun x hx => h x (by simp [hx])
    have hlen : (byteToHexPair b).length = 2 := byteToHexPair_len b hb
    rcases hpair : byteToHexPair b with _ | ⟨c1, _ | ⟨c2, tail⟩⟩
    · simp [hpair] at hlen
    · simp [hpair] at hlen
    · have htail : tail = [] := by
        simpa [hpair] using hlen
      subst htail
      have hparse : jsParseIntHex [c1, c2] = some ((b : Nat) : Int) := by
        rw [← hpair]; exact parse_pair b hb
      show parseHexPairs (bytesHex (b :: rest)) = _
      have hbody : bytesHex (b :: rest) = c1 :: c2 :: bytesHex rest := by
        simp [bytesHex, hpair]
      rw [hbody]
      have step : parseHexPairs (c1 :: c2 :: bytesHex rest) =
          match jsParseIntHex [c1, c2] with
          | none => none
          | some b2 =>
            match parseHexPairs (bytesHex rest) with
            | none => none
            | some bs => some (b2 :: bs) := rfl
      rw [step, hparse, parseHexPairs_bytesHex rest hrest]
      simp

theorem bytesHex_length (bytes : List Nat) (h : ∀ b ∈ bytes, b < 256) :
    (bytesHex bytes).length = 2 * bytes.length := by
  induction bytes with
  | nil => rfl
  | cons b rest ih =>
    have hb : b < 256 := h b (by simp)
    have hrest : ∀ x ∈ rest, x < 256 := fun x hx => h x (by simp [hx])
    simp [bytesHex, byteToHexPair_len b hb, List.length_append] at ih ⊢
    rw [ih hrest]
    ring

/-- Parsing a rendered frame with the same key recovers the byte sequence. -/
theorem hexToBytes_bytesToHex (bytes : List Nat) (dk : List Nat)
    (hb : ∀ b ∈ bytes, b < 256) :
    hexToBytes (bytesToHex bytes dk) dk = .ok (bytes.map (fun b => ((b : Nat) : Int))) := by
  unfold bytesToHex hexToBytes
  rw [jsSplit_dot _ _ (fun c hc => (bytesHex_chars bytes c hc).1)
    (fun c hc => (calculateChecksum_chars (bytesHex bytes) dk c hc).1)]
  have hlen : (bytesHex bytes).length % 2 = 0 := by
    rw [bytesHex_length bytes hb]
    omega
  simp [hlen, parseHexPairs_bytesHex bytes hb]

/-! ## Claim C1 -/

/-- C1: for every byte sequence (the UTF-8 encoding of the text) and every
non-empty key, decoding the encoded frame with the same key returns the
original bytes exactly. -/
theorem encode_decode_roundtrip (textBytes : List Nat) (key : JStr)
    (hk : key ≠ []) (hb : ∀ b ∈ textBytes, b < 256) :
    ∃ frame, encode textBytes key = .ok frame ∧ decode frame key = .ok textBytes := by
  by_cases he : textBytes = []
  · subst he
    exact ⟨[], rfl, rfl⟩
  · have hdk : keyDerivation key = some (keystreamGen (key.foldl djb2Step 5381) 0 256) := by
      simp [keyDerivation, hk]
    set dk := keystreamGen (key.foldl djb2Step 5381) 0 256 with hdkdef
    have hdkel : ∀ x ∈ dk, x < 256 := keystreamGen_all_lt 256 _ 0
    set scr := (textBytes.enum).map (fun p => scrambleByte p.2 p.1 dk) with hscr
    have hscr256 : ∀ x ∈ scr, x < 256 := by
      intro x hx
      rcases List.mem_map.1 hx with ⟨p, _, rfl⟩
      exact scrambleByte_lt _ _ _
    refine ⟨bytesToHex scr dk, ?_, ?_⟩
    · simp [encode, he, hdk]
  -- the frame is non-empty because it contains the dot separator
    · have hne : bytesToHex scr dk ≠ [] := by
        simp [bytesToHex]
      simp only [decode, if_neg hne, hdk, hexToBytes_bytesToHex scr dk hscr256]
      refine congrArg Except.ok ?_
      apply List.ext_getElem
      · simp [hscr]
      · intro i h1 h2
        simp only [List.getElem_map, List.getElem_enum, hscr]
        exact unscramble_scramble _ _ _ (hb _ (List.getElem_mem h2)) hdkel

/-- Witness for C1: the two-byte text "HI" with the key "k". -/
theorem encode_decode_roundtrip_witness :
    strCodes "k" ≠ [] ∧ (∀ b ∈ [72, 73], b < 256) ∧
    ∃ frame, encode [72, 73] (strCodes "k") = .ok frame ∧
      decode frame (strCodes "k") = .ok [72, 73] :=
  ⟨by decide, by decide, encode_decode_roundtrip [72, 73] (strCodes "k") (by decide) (by decide)⟩

/-- Decidable equality for Except values, used to evaluate concrete frames. -/
instance {e a : Type} [DecidableEq e] [DecidableEq a] : DecidableEq (Except e a) := by
  intro x y
  cases x with
  | error xe =>
    cases y with
    | error ye => exact decidable_of_iff (xe = ye) (by simp)
    | ok ya => exact isFalse (by simp)
  | ok xa =>
    cases y with
    | error ye => exact isFalse (by simp)
    | ok ya => exact decidable_of_iff (xa = ya) (by simp)

/-! ## Claim C3 -/

/-- Derived keystream for the passphrase "k", used in concrete frame
examples. -/
def dkK : List Nat := (keyDerivation (strCodes "k")).getD []

/-- Concrete frame whose hex portion is "0g" followed by its correct
checksum. -/
def frameC3 : JStr := strCodes "0g." ++ calculateChecksum (strCodes "0g") dkK

set_option maxHeartbeats 2000000 in
/-- C3 counterexample: this frame splits into exactly two parts on the dot and
its hex portion contains the non-hex character g (code 103), yet hexToBytes
does not fail: JavaScript parseInt("0g", 16) parses the prefix 0, so the frame
decodes to the byte 0. -/
theorem hexToBytes_accepts_non_hex :
    (jsSplit 46 frameC3).length = 2 ∧
    103 ∈ (jsSplit 46 frameC3).getD 0 [] ∧ isAsciiHexDigit 103 = false ∧
    hexToBytes frameC3 dkK = .ok [0] := by decide

/-- C3 amended: a non-hex character in the hex portion causes a failure only
through the pairwise parse: when the frame splits into exactly two parts whose
checksum matches and whose hex portion has even length, hexToBytes fails (with
the bad-hex-digit error) exactly when some two-character pair fails JavaScript
prefix hex parsing; a pair whose leading characters parse (such as a hex digit
followed by a non-hex character) is decoded instead of rejected. -/
theorem hexToBytes_bad_pair (frame : JStr) (dk : List Nat) (h c : JStr)
    (hsplit : jsSplit 46 frame = [h, c]) (hcs : c = calculateChecksum h dk)
    (heven : h.length % 2 = 0) (hbad : parseHexPairs h = none) :
    hexToBytes frame dk = .error .badHexDigit := by
  unfold hexToBytes
  rw [hsplit]
  simp [hcs, heven, hbad]

set_option maxHeartbeats 2000000 in
/-- Witness for the amended C3: a frame whose hex portion is "g0", whose first
pair fails prefix parsing, is rejected with the bad-hex-digit error. -/
theorem hexToBytes_bad_pair_witness :
    hexToBytes (strCodes "g0." ++ calculateChecksum (strCodes "g0") dkK) dkK =
      .error .badHexDigit :=
  hexToBytes_bad_pair _ dkK (strCodes "g0") (calculateChecksum (strCodes "g0") dkK)
    (by decide) rfl (by decide) (by decide)

/-! ## Claim C4: machinery for checksum distinctness -/

theorem polyStep_lt (c ch : Nat) : polyStep c ch < 65536 := Nat.mod_lt _ (by norm_num)

theorem foldl_polyStep_lt (l : List Nat) (c : Nat) (hc : c < 65536) :
    l.foldl polyStep c < 65536 := by
  induction l generalizing c with
  | nil => exact hc
  | cons x xs ih => exact ih _ (polyStep_lt _ _)

theorem polyStep_ne_of_state {s t : Nat} (ch : Nat) (h1 : s < 65536) (h2 : t < 65536)
    (hne : s ≠ t) : polyStep s ch ≠ polyStep t ch := by
  intro he
  apply hne
  have hm : s * 31 ≡ t * 31 [MOD 65536] := Nat.ModEq.add_right_cancel' ch he
  have hm2 : 31 * s ≡ 31 * t [MOD 65536] := by
    rwa [Nat.mul_comm s 31, Nat.mul_comm t 31] at hm
  exact Nat.ModEq.eq_of_lt_of_lt (Nat.ModEq.cancel_left_of_coprime (by decide) hm2) h1 h2

theorem polyStep_ne_of_char {c1 c2 : Nat} (s : Nat) (h1 : c1 < 65536) (h2 : c2 < 65536)
    (hne : c1 ≠ c2) : polyStep s c1 ≠ polyStep s c2 := by
  intro he
  exact hne (Nat.ModEq.eq_of_lt_of_lt (Nat.ModEq.add_left_cancel' (s * 31) he) h1 h2)

theorem foldl_polyStep_ne (l : List Nat) {s t : Nat} (h1 : s < 65536) (h2 : t < 65536)
    (hne : s ≠ t) : l.foldl polyStep s ≠ l.foldl polyStep t := by
  induction l generalizing s t with
  | nil => exact hne
  | cons x xs ih =>
    exact ih (polyStep_lt _ _) (polyStep_lt _ _) (polyStep_ne_of_state x h1 h2 hne)

theorem foldl_addStep_lt (g : Nat → Nat) (l : List Nat) (c : Nat) (hc : c < 65536) :
    l.foldl (fun c i => (c + g i) % 65536) c < 65536 := by
  induction l generalizing c with
  | nil => exact hc
  | cons x xs ih => exact ih _ (Nat.mod_lt _ (by norm_num))

theorem foldl_addStep_ne (g : Nat → Nat) (l : List Nat) {s t : Nat}
    (h1 : s < 65536) (h2 : t < 65536) (hne : s ≠ t) :
    l.foldl (fun c i => (c + g i) % 65536) s ≠ l.foldl (fun c i => (c + g i) % 65536) t := by
  induction l generalizing s t with
  | nil => exact hne
  | cons x xs ih =>
    refine ih (Nat.mod_lt _ (by norm_num)) (Nat.mod_lt _ (by norm_num)) ?_
    intro he
    apply hne
    exact Nat.ModEq.eq_of_lt_of_lt (Nat.ModEq.add_right_cancel' (g x) he) h1 h2

theorem checksumValue_lt (data : JStr) (dk : List Nat) : checksumValue data dk < 65536 :=
  foldl_addStep_lt _ _ _ (foldl_polyStep_lt _ _ (by norm_num))

theorem checksumValue_ne (d1 d2 : JStr) (dk : List Nat)
    (h : d1.foldl polyStep 0 ≠ d2.foldl polyStep 0) :
    checksumValue d1 dk ≠ checksumValue d2 dk :=
  foldl_addStep_ne _ _ (foldl_polyStep_lt _ _ (by norm_num))
    (foldl_polyStep_lt _ _ (by norm_num)) h

theorem list_decomp {α : Type} (l : List α) (i : Nat) (h : i < l.length) :
    l = l.take i ++ l.get ⟨i, h⟩ :: l.drop (i + 1) := by
  conv_lhs => rw [← List.take_append_drop i l]
  congr 1
  exact List.drop_eq_getElem_cons h

theorem polyVal_set_ne (h : JStr) (i : Nat) (hi : i < h.length) (c2 : Nat)
    (hnew : c2 ≠ h.get ⟨i, hi⟩) (hold : h.get ⟨i, hi⟩ < 65536) (hc2 : c2 < 65536) :
    (h.set i c2).foldl polyStep 0 ≠ h.foldl polyStep 0 := by
  have hset : h.set i c2 = h.take i ++ c2 :: h.drop (i + 1) := by
    rw [List.set_eq_take_append_cons_drop, if_pos hi]
  conv_rhs => rw [list_decomp h i hi]
  rw [hset, List.foldl_append, List.foldl_append, List.foldl_cons, List.foldl_cons]
  have hs : (h.take i).foldl polyStep 0 < 65536 := foldl_polyStep_lt _ _ (by norm_num)
  exact foldl_polyStep_ne _ (polyStep_lt _ _) (polyStep_lt _ _)
    (polyStep_ne_of_char _ hc2 hold hnew)

/-! ## Injectivity of the four-digit hex rendering -/

theorem natToHexAux_congr : ∀ (n f1 f2 : Nat), n ≤ f1 → n ≤ f2 →
    natToHexAux f1 n = natToHexAux f2 n := by
  intro n
  induction n using Nat.strong_induction_on with
  | _ n ih =>
    intro f1 f2 hn1 hn2
    match n, f1, f2 with
    | 0, 0, 0 => rfl
    | 0, 0, _ + 1 => rfl
    | 0, _ + 1, 0 => rfl
    | 0, _ + 1, _ + 1 => rfl
    | m + 1, g1 + 1, g2 + 1 =>
      show natToHexAux g1 ((m + 1) / 16) ++ _ = natToHexAux g2 ((m + 1) / 16) ++ _
      have hlt : (m + 1) / 16 < m + 1 := Nat.div_lt_self (by omega) (by norm_num)
      rw [ih ((m + 1) / 16) hlt g1 g2 (by omega) (by omega)]

theorem natToHexAux_self_eq (n : Nat) (hn : n ≠ 0) :
    natToHexAux n n = natToHexAux (n / 16) (n / 16) ++ [hexDigitChar (n % 16)] := by
  obtain ⟨m, rfl⟩ : ∃ m, n = m + 1 := ⟨n - 1, by omega⟩
  show natToHexAux m ((m + 1) / 16) ++ _ = _
  have hlt : (m + 1) / 16 < m + 1 := Nat.div_lt_self (by omega) (by norm_num)
  rw [natToHexAux_congr ((m + 1) / 16) m ((m + 1) / 16) (by omega) le_rfl]

theorem natToHexAux_self_ne_nil (n : Nat) (hn : n ≠ 0) : natToHexAux n n ≠ [] := by
  rw [natToHexAux_self_eq n hn]
  simp

theorem natToHex_head_ne_48 : ∀ n : Nat, n ≠ 0 → (natToHexAux n n).head? ≠ some 48 := by
  intro n
  induction n using Nat.strong_induction_on with
  | _ n ih =>
    intro hn
    rw [natToHexAux_self_eq n hn]
    by_cases hq : n / 16 = 0
    · have hlt : n % 16 < 16 := Nat.mod_lt _ (by norm_num)
      have hpos : n % 16 ≠ 0 := by omega
      have hd : ∀ d, d < 16 → d ≠ 0 → hexDigitChar d ≠ 48 := by decide
      simp [hq, natToHexAux]
      exact hd _ hlt hpos
    · have hne : natToHexAux (n / 16) (n / 16) ≠ [] := natToHexAux_self_ne_nil _ hq
      rcases hh : natToHexAux (n / 16) (n / 16) with _ | ⟨p, rest⟩
      · exact absurd hh hne
      · have := ih (n / 16) (Nat.div_lt_self (by omega) (by norm_num)) hq
        rw [hh] at this
        simpa using this

theorem natToHexAux_self_inj : ∀ n m : Nat, natToHexAux n n = natToHexAux m m → n = m := by
  intro n
  induction n using Nat.strong_induction_on with
  | _ n ih =>
    intro m he
    by_cases hn : n = 0
    · subst hn
      by_cases hm : m = 0
      · omega
      · exact absurd he.symm (by simpa [natToHexAux] using natToHexAux_self_ne_nil m hm)
    · by_cases hm : m = 0
      · subst hm
        exact absurd he (by simpa [natToHexAux] using natToHexAux_self_ne_nil n hn)
      · rw [natToHexAux_self_eq n hn, natToHexAux_self_eq m hm] at he
        obtain ⟨hpre, hdig⟩ := List.append_inj' he (by simp)
        have hdinj : ∀ a, a < 16 → ∀ b, b < 16 → hexDigitChar a = hexDigitChar b → a = b := by
          decide
        have hmod : n % 16 = m % 16 :=
          hdinj _ (Nat.mod_lt _ (by norm_num)) _ (Nat.mod_lt _ (by norm_num))
            (by simpa using hdig)
        have hdiv : n / 16 = m / 16 :=
          ih (n / 16) (Nat.div_lt_self (by omega) (by norm_num)) (m / 16) hpre
        omega

theorem jsToStringHex_ne_nil (n : Nat) : jsToStringHex n ≠ [] := by
  by_cases hn : n = 0
  · simp [jsToStringHex, hn]
  · simpa [jsToStringHex, hn] using natToHexAux_self_ne_nil n hn

theorem jsToStringHex_inj {n m : Nat} (h : jsToStringHex n = jsToStringHex m) : n = m := by
  by_cases hn : n = 0 <;> by_cases hm : m = 0
  · omega
  · exact absurd h.symm (by
      simp only [jsToStringHex, if_pos hn, if_neg hm]
      intro hc
      exact natToHex_head_ne_48 m hm (by rw [hc]; rfl))
  · exact absurd h (by
      simp only [jsToStringHex, if_neg hn, if_pos hm]
      intro hc
      exact natToHex_head_ne_48 n hn (by rw [hc]; rfl))
  · exact natToHexAux_self_inj n m (by simpa [jsToStringHex, hn, hm] using h)

theorem natToHexAux_len_le : ∀ (k n : Nat), n < 16 ^ k → (natToHexAux n n).length ≤ k := by
  intro k
  induction k with
  | zero =>
    intro n hn
    interval_cases n
    simp [natToHexAux]
  | succ k ih =>
    intro n hn
    by_cases h : n = 0
    · simp [h, natToHexAux]
    · rw [natToHexAux_self_eq n h]
      have hdiv : n / 16 < 16 ^ k := by
        have : n < 16 ^ k * 16 := by
          rw [← pow_succ]
          exact hn
        omega
      have := ih (n / 16) hdiv
      simp [List.length_append]
      omega

theorem jsToStringHex_len_le (n : Nat) (h : n < 65536) : (jsToStringHex n).length ≤ 4 := by
  by_cases hn : n = 0
  · simp [jsToStringHex, hn]
  · simpa [jsToStringHex, hn] using natToHexAux_len_le 4 n (by norm_num [h])

theorem padded_head_48 (s1 s2 : List Nat)
    (he : List.replicate (4 - s1.length) 48 ++ s1 = List.replicate (4 - s2.length) 48 ++ s2)
    (hl : s1.length < s2.length) (h4 : s2.length ≤ 4) : s2.head? = some 48 := by
  have hdropeq : s2 = (List.replicate (4 - s2.length) 48 ++ s2).drop (4 - s2.length) :=
    (List.drop_left' (by simp)).symm
  conv_lhs => rw [hdropeq, ← he]
  rw [List.head?_drop]
  have hidx : 4 - s2.length < (List.replicate (4 - s1.length) 48).length := by
    simp only [List.length_replicate]
    omega
  rw [List.getElem?_append, if_pos hidx, List.getElem?_replicate]
  simp only [List.length_replicate] at hidx
  simp [hidx]

theorem pad4_ne_of_len_lt {v1 v2 : Nat} (h2 : v2 < 65536)
    (hl : (jsToStringHex v1).length < (jsToStringHex v2).length) :
    padStart 4 48 (jsToStringHex v1) ≠ padStart 4 48 (jsToStringHex v2) := by
  intro he
  have hhead : (jsToStringHex v2).head? = some 48 :=
    padded_head_48 (jsToStringHex v1) (jsToStringHex v2) he hl (jsToStringHex_len_le v2 h2)
  have hv2 : v2 ≠ 0 := by
    intro hz
    have hlen2 : (jsToStringHex v2).length = 1 := by simp [jsToStringHex, hz]
    have hne1 : jsToStringHex v1 ≠ [] := jsToStringHex_ne_nil v1
    have h1 : 1 ≤ (jsToStringHex v1).length := by
      cases hc : jsToStringHex v1
      · exact absurd hc hne1
      · simp [hc]
    omega
  have hne : (jsToStringHex v2).head? ≠ some 48 := by
    simp only [jsToStringHex, if_neg hv2]
    exact natToHex_head_ne_48 v2 hv2
  exact hne hhead

theorem pad4_inj {v1 v2 : Nat} (h1 : v1 < 65536) (h2 : v2 < 65536)
    (he : padStart 4 48 (jsToStringHex v1) = padStart 4 48 (jsToStringHex v2)) : v1 = v2 := by
  rcases Nat.lt_trichotomy (jsToStringHex v1).length (jsToStringHex v2).length with h | h | h
  · exact absurd he (pad4_ne_of_len_lt h2 h)
  · apply jsToStringHex_inj
    have hrep : 4 - (jsToStringHex v1).length = 4 - (jsToStringHex v2).length := by omega
    simpa [padStart, hrep] using he
  · exact absurd he.symm (pad4_ne_of_len_lt h1 h)

/-! ## Claim C4 -/

set_option maxHeartbeats 1000000 in
/-- C4 counterexample: the claim quantifies over every replacement character;
replacing a hex character by the dot itself (here the first character of a
valid one-byte frame, which is not a dot) makes the frame split into three
parts, so unframe fails with the malformed-shape error, not with a checksum
mismatch. -/
theorem frame_dot_mutation_bad_shape :
    (bytesToHex [72] dkK).getD 0 0 ≠ 46 ∧
    hexToBytes ((bytesToHex [72] dkK).set 0 46) dkK = .error .badShape ∧
    FrameError.badShape ≠ FrameError.checksumMismatch := by decide

/-- C4 amended: changing any single character of the hex portion of a produced
frame to a different character other than the dot separator makes unframe fail
with a checksum mismatch (the new character may be any UTF-16 code unit). -/
theorem frame_mutation_checksum_mismatch (bytes dk : List Nat)
    (i : Nat) (hi : i < (bytesHex bytes).length) (c2 : Nat)
    (hne : c2 ≠ (bytesHex bytes).get ⟨i, hi⟩) (hdot : c2 ≠ 46) (hlt : c2 < 65536) :
    hexToBytes ((bytesToHex bytes dk).set i c2) dk = .error .checksumMismatch := by
  set hex := bytesHex bytes with hhex
  set cs := calculateChecksum hex dk with hcs
  have hset : (bytesToHex bytes dk).set i c2 = hex.set i c2 ++ 46 :: cs := by
    unfold bytesToHex
    rw [List.set_append]
    simp [← hhex, ← hcs, hi]
  have hnodot : ∀ c ∈ hex.set i c2, c ≠ 46 := by
    intro c hc
    rcases List.mem_or_eq_of_mem_set hc with h | rfl
    · exact (bytesHex_chars bytes c h).1
    · exact hdot
  have hold : hex.get ⟨i, hi⟩ < 65536 :=
    (bytesHex_chars bytes _ (List.get_mem hex i hi)).2
  have hval : checksumValue (hex.set i c2) dk ≠ checksumValue hex dk :=
    checksumValue_ne _ _ dk (polyVal_set_ne hex i hi c2 hne hold hlt)
  have hcsne : cs ≠ calculateChecksum (hex.set i c2) dk := by
    intro he
    rw [hcs] at he
    unfold calculateChecksum at he
    exact hval (pad4_inj (checksumValue_lt _ _) (checksumValue_lt _ _) he).symm
  rw [hset]
  unfold hexToBytes
  rw [jsSplit_dot _ _ hnodot (fun c hc => (calculateChecksum_chars hex dk c hc).1)]
  simp [hcsne]

set_option maxHeartbeats 1000000 in
/-- Witness for the amended C4: replacing the first hex character of the
one-byte frame for the byte 72 under the key "k" by the character 0 yields a
checksum mismatch. -/
theorem frame_mutation_checksum_mismatch_witness :
    hexToBytes ((bytesToHex [72] dkK).set 0 48) dkK = .error .checksumMismatch :=
  frame_mutation_checksum_mismatch [72] dkK 0 (by decide) 48 (by decide) (by decide)
    (by decide)

/-! ## Detection engine: character classes and shape tests (part_000)
Each regular expression of the source is modelled by an equivalent predicate;
the bounded repetitions are implemented as deterministic automata obtained by
the usual subset construction, which is structurally recursive and therefore
evaluable by the kernel. -/

/-- Character class [a-zA-Z]. -/
def isAsciiLetter (c : Nat) : Bool := (65 ≤ c && c ≤ 90) || (97 ≤ c && c ≤ 122)

/-- Character class [0-9]. -/
def isDigit (c : Nat) : Bool := 48 ≤ c && c ≤ 57

/-- Character class [A-Za-z0-9+/], the base64 alphabet. -/
def isB64Char (c : Nat) : Bool :=
  (65 ≤ c && c ≤ 90) || (97 ≤ c && c ≤ 122) || (48 ≤ c && c ≤ 57) || c = 43 || c = 47

/-- Shape test for the regexp of the source matching base64 text with up to two
trailing padding characters: the anchored pattern of zero or more alphabet
characters followed by at most two equals signs. -/
def base64Shape (s : JStr) : Bool :=
  match s.reverse with
  | 61 :: 61 :: r => r.all isB64Char
  | 61 :: r => r.all isB64Char
  | r => r.all isB64Char

/-- Shape test for the base32 regexp, the anchored case-insensitive class
[A-Z2-7=] repeated. -/
def base32ClassTest (s : JStr) : Bool :=
  s.all (fun c => (65 ≤ c && c ≤ 90) || (97 ≤ c && c ≤ 122) || (50 ≤ c && c ≤ 55) || c = 61)

/-- Shape test for the base85 regexp class of the source. -/
def isB85TestChar (c : Nat) : Bool :=
  isDigit c || isAsciiLetter c ||
  c = 33 || c = 35 || c = 36 || c = 37 || c = 38 || c = 40 || c = 41 || c = 42 ||
  c = 43 || c = 45 || c = 59 || c = 60 || c = 61 || c = 62 || c = 63 || c = 64 ||
  c = 94 || c = 95 || c = 96 || c = 123 || c = 124 || c = 125 || c = 126

/-- Shape test for the anchored base85 class repeated zero or more times. -/
def base85ClassTest (s : JStr) : Bool := s.all isB85TestChar

/-- Deterministic automaton for the anchored regexp of one or more groups of
exactly two hexadecimal digits each followed by optional whitespace.  State 0
expects the first digit of a pair, state 1 the second, state 2 is reached
after a complete pair and accepts. -/
def hexPairsDFA : Nat → List Nat → Bool
  | st, [] => st == 2
  | 0, c :: r => if isAsciiHexDigit c then hexPairsDFA 1 r else false
  | 1, c :: r => if isAsciiHexDigit c then hexPairsDFA 2 r else false
  | _, c :: r =>
    if isAsciiHexDigit c then hexPairsDFA 1 r
    else if isJsWhitespace c then hexPairsDFA 2 r
    else false

/-- The regexp matching one or more whitespace-separated hex pairs. -/
def hexPairsPlus (s : JStr) : Bool := hexPairsDFA 0 s

/-- The star variant used by the input validator, which also accepts the empty
string. -/
def hexPairsStar (s : JStr) : Bool := s.isEmpty || hexPairsDFA 0 s

/-- Deterministic automaton for the anchored regexp of one or more groups of
exactly eight binary digits each followed by optional whitespace.  State 9 is
the initial state, state k in 1..7 means k digits remain in the open group,
state 0 is reached after a complete group and accepts. -/
def binDFA : Nat → List Nat → Bool
  | st, [] => st == 0
  | st, c :: r =>
    if st == 0 || st == 9 then
      if c = 48 || c = 49 then binDFA 7 r
      else if st == 0 && isJsWhitespace c then binDFA 0 r
      else false
    else if c = 48 || c = 49 then binDFA (st - 1) r
    else false

/-- The regexp matching one or more whitespace-separated 8-digit binary
groups. -/
def binGroupsPlus (s : JStr) : Bool := binDFA 9 s

/-- The star variant used by the input validator. -/
def binGroupsStar (s : JStr) : Bool := s.isEmpty || binDFA 9 s

/-- Subset-construction step for the anchored regexp of one or more groups of
two or three decimal digits each followed by optional whitespace.  The state
is a bit set: bit 0 the initial state, bit 1 a completed group boundary, bit 2
one digit into a group, bit 3 two digits into a group (a group may close after
two or after three digits). -/
def asciiStep (st c : Nat) : Nat :=
  if isDigit c then
    (if st &&& 1 ≠ 0 || st &&& 2 ≠ 0 then 4 else 0) |||
    (if st &&& 4 ≠ 0 then 8 else 0) |||
    (if st &&& 8 ≠ 0 then 6 else 0)
  else if isJsWhitespace c then
    (if st &&& 2 ≠ 0 || st &&& 8 ≠ 0 then 2 else 0)
  else 0

/-- Automaton run for the decimal-code-groups regexp; accepting states are a
completed boundary or two digits into a group. -/
def asciiDFA : Nat → List Nat → Bool
  | st, [] => st &&& 2 != 0 || st &&& 8 != 0
  | st, c :: r => asciiDFA (asciiStep st c) r

/-- The regexp matching one or more whitespace-separated groups of two or
three decimal digits. -/
def asciiGroupsPlus (s : JStr) : Bool := asciiDFA 1 s

/-- The anchored Morse class regexp: one or more of dot, dash, slash or
whitespace. -/
def morseClassTest (s : JStr) : Bool :=
  !s.isEmpty && s.all (fun c => c = 46 || c = 45 || c = 47 || isJsWhitespace c)

/-- Search for a percent escape, the unanchored regexp of a percent sign
followed by two hexadecimal digits. -/
def hasPctHex : List Nat → Bool
  | 37 :: h1 :: h2 :: r =>
    (isAsciiHexDigit h1 && isAsciiHexDigit h2) || hasPctHex (h1 :: h2 :: r)
  | _ :: r => hasPctHex r
  | [] => false

/-- Search for a quoted-printable escape, the unanchored regexp of an equals
sign followed by two hexadecimal digits. -/
def hasEqHex : List Nat → Bool
  | 61 :: h1 :: h2 :: r =>
    (isAsciiHexDigit h1 && isAsciiHexDigit h2) || hasEqHex (h1 :: h2 :: r)
  | _ :: r => hasEqHex r
  | [] => false

/-- JavaScript String.prototype.trim. -/
def jsTrim (s : JStr) : JStr :=
  ((s.dropWhile isJsWhitespace).reverse.dropWhile isJsWhitespace).reverse

/-- Accumulator for wsTokens. -/
def wsTokensAux : List Nat → List Nat → List JStr
  | [], cur => if cur.isEmpty then [] else [cur.reverse]
  | c :: rest, cur =>
    if isJsWhitespace c then
      if cur.isEmpty then wsTokensAux rest [] else cur.reverse :: wsTokensAux rest []
    else wsTokensAux rest (c :: cur)

/-- Maximal runs of non-whitespace characters.  The source always calls
trim().split(on one or more whitespace characters) on a string whose trim is
non-empty, where that split returns exactly these runs. -/
def wsTokens (s : JStr) : List JStr := wsTokensAux s []

/-! ## Detection engine: parseInt variants -/

/-- Longest leading run of binary digits. -/
def takeBinDigits : List Nat → List Nat
  | [] => []
  | c :: r => if c = 48 || c = 49 then c :: takeBinDigits r else []

/-- Longest leading run of decimal digits. -/
def takeDecDigits : List Nat → List Nat
  | [] => []
  | c :: r => if isDigit c then c :: takeDecDigits r else []

/-- Value of a list of binary digits. -/
def binDigitsVal (l : List Nat) : Nat := l.foldl (fun a c => a * 2 + (c - 48)) 0

/-- Value of a list of decimal digits. -/
def decDigitsVal (l : List Nat) : Nat := l.foldl (fun a c => a * 10 + (c - 48)) 0

/-- JavaScript parseInt(s, 2): leading whitespace, optional sign, longest
prefix of binary digits (no 0x prefix handling for this radix). -/
def jsParseIntBin (s : JStr) : Option Int :=
  let t := s.dropWhile (fun c => isJsWhitespace c)
  let signAndRest : Int × JStr :=
    match t with
    | 43 :: r => (1, r)
    | 45 :: r => (-1, r)
    | _ => (1, t)
  let ds := takeBinDigits signAndRest.2
  if ds = [] then none else some (signAndRest.1 * binDigitsVal ds)

/-- JavaScript parseInt(s) with no radix argument: leading whitespace,
optional sign, then hexadecimal after a 0x or 0X prefix, else the longest
prefix of decimal digits. -/
def jsParseIntDec (s : JStr) : Option Int :=
  let t := s.dropWhile (fun c => isJsWhitespace c)
  let signAndRest : Int × JStr :=
    match t with
    | 43 :: r => (1, r)
    | 45 :: r => (-1, r)
    | _ => (1, t)
  match signAndRest.2 with
  | 48 :: 120 :: r =>
    let ds := takeHexDigits r
    if ds = [] then none else some (signAndRest.1 * hexDigitsVal ds)
  | 48 :: 88 :: r =>
    let ds := takeHexDigits r
    if ds = [] then none else some (signAndRest.1 * hexDigitsVal ds)
  | r =>
    let ds := takeDecDigits r
    if ds = [] then none else some (signAndRest.1 * decDigitsVal ds)

/-- JavaScript String.fromCharCode applied to a parseInt result: ToUint16 of
the number, with NaN mapped to 0. -/
def fromCharCodeVal (v : Option Int) : Nat := ((v.getD 0) % 65536).toNat

/-! ## Detection engine: individual decoders (part_000) -/

/-- Input validator of the source for the base64 case: the generic 1MB size
limit, the shape regexp, and length divisible by four. -/
def validateBase64 (s : JStr) : Bool :=
  s.length ≤ 1048576 && base64Shape s && s.length % 4 == 0

/-- Input validator of the source for the hex case: the 1MB limit and the
star-quantified hex-pairs regexp on the trimmed input. -/
def validateHex (s : JStr) : Bool := s.length ≤ 1048576 && hexPairsStar (jsTrim s)

/-- Input validator of the source for the binary case. -/
def validateBinary (s : JStr) : Bool := s.length ≤ 1048576 && binGroupsStar (jsTrim s)

/-- Value of a base64 alphabet character. -/
def b64Val (c : Nat) : Option Nat :=
  if 65 ≤ c && c ≤ 90 then some (c - 65)
  else if 97 ≤ c && c ≤ 122 then some (c - 71)
  else if 48 ≤ c && c ≤ 57 then some (c + 4)
  else if c = 43 then some 62
  else if c = 47 then some 63
  else none

/-- Group decoding of forgiving base64: full groups of four give three bytes,
a final group of three gives two bytes, of two gives one byte; discarded low
bits are not checked. -/
def atobCore : List Nat → Option (List Nat)
  | [] => some []
  | [a, b] =>
    match b64Val a, b64Val b with
    | some va, some vb => some [(va <<< 2) ||| (vb >>> 4)]
    | _, _ => none
  | [a, b, c] =>
    match b64Val a, b64Val b, b64Val c with
    | some va, some vb, some vc =>
      some [(va <<< 2) ||| (vb >>> 4), ((vb &&& 15) <<< 4) ||| (vc >>> 2)]
    | _, _, _ => none
  | a :: b :: c :: d :: rest =>
    match b64Val a, b64Val b, b64Val c, b64Val d, atobCore rest with
    | some va, some vb, some vc, some vd, some tail =>
      some (((va <<< 2) ||| (vb >>> 4)) ::
        (((vb &&& 15) <<< 4) ||| (vc >>> 2)) ::
        (((vc &&& 3) <<< 6) ||| vd) :: tail)
    | _, _, _, _, _ => none
  | _ => none

/-- Modelled from the spec: the host atob function, which implements the
forgiving-base64 decode (strip ASCII whitespace, strip up to two trailing
padding characters when the length is a multiple of four, reject a remaining
length of one modulo four and any character outside the alphabet). -/
def jsAtob (s : JStr) : Option (List Nat) :=
  let t := s.filter (fun c => !(c = 9 || c = 10 || c = 12 || c = 13 || c = 32))
  let t2 :=
    if t.length % 4 == 0 then
      match t.reverse with
      | 61 :: 61 :: r => r.reverse
      | 61 :: r => r.reverse
      | _ => t
    else t
  if t2.length % 4 == 1 then none
  else if t2.contains 61 then none
  else atobCore t2

/-- Uppercase of a character in the ASCII range.  The source calls toUpperCase
before the base32 alphabet lookup; inside the detection loop the input has
already passed the base32 class test, where the ASCII mapping is exact. -/
def toUpperAscii (c : Nat) : Nat := if 97 ≤ c && c ≤ 122 then c - 32 else c

/-- Index of a character in the base32 alphabet A-Z2-7 after uppercasing. -/
def b32Idx (c : Nat) : Option Nat :=
  let u := toUpperAscii c
  if 65 ≤ u && u ≤ 90 then some (u - 65)
  else if 50 ≤ u && u ≤ 55 then some (u - 50 + 26)
  else none

/-- Bit accumulation loop of decodeBase32: shift in five bits per character
(the JavaScript accumulator wraps at 32 bits) and emit a byte whenever eight
bits are available. -/
def decodeBase32Core : List Nat → Nat → Nat → Option (List Nat)
  | [], _, _ => some []
  | c :: rest, value, bits =>
    match b32Idx c with
    | none => none
    | some idx =>
      let v := (value <<< 5) % U32 ||| idx
      if bits + 5 ≥ 8 then
        match decodeBase32Core rest v (bits + 5 - 8) with
        | none => none
        | some out => some (((v >>> (bits + 5 - 8)) &&& 255) :: out)
      else
        decodeBase32Core rest v (bits + 5)

/-- part_000 decodeBase32: strip the trailing run of padding characters, then
accumulate five bits per character, failing on any character outside the
alphabet. -/
def decodeBase32 (s : JStr) : Option (List Nat) :=
  decodeBase32Core ((s.reverse.dropWhile (fun c => c = 61)).reverse) 0 0

/-- The base85 alphabet of the source:
digits, uppercase, lowercase, then the 23 punctuation characters. -/
def base85AlphabetCodes : List Nat :=
  (List.range 10).map (fun i => 48 + i) ++
  (List.range 26).map (fun i => 65 + i) ++
  (List.range 26).map (fun i => 97 + i) ++
  [33, 35, 36, 37, 38, 40, 41, 42, 43, 45, 59, 60, 61, 62, 63, 64, 94, 95, 96, 123, 124, 125, 126]

/-- Alphabet index for decodeBase85; none models the thrown error when
indexOf returns -1. -/
def b85Idx (c : Nat) : Option Nat := base85AlphabetCodes.findIdx? (fun x => x == c)

/-- One chunk of up to five characters of decodeBase85: accumulate base-85
digits into a value (exact as a JavaScript double), then extract four bytes
from its 32-bit pattern with arithmetic shifts and masks, keeping one byte
fewer than the chunk length. -/
def b85Group (chunk : List Nat) : Option (List Nat) :=
  match chunk.mapM b85Idx with
  | none => none
  | some idxs =>
    let value := idxs.foldl (fun v i => v * 85 + i) 0
    let p := value % U32
    some (([(p >>> 24) &&& 255, (p >>> 16) &&& 255, (p >>> 8) &&& 255, p &&& 255]).take
      (chunk.length - 1))

/-- Loop of part_000 decodeBase85: a chunk-initial z emits the literal
backslash-zero text (the source string contains the two-character escape
backslash zero four times), otherwise up to five characters form a group and
the index advances by five. -/
def decodeBase85Core : List Nat → Option (List Nat)
  | [] => some []
  | 122 :: rest =>
    match decodeBase85Core rest with
    | none => none
    | some tail => some ([92, 48, 92, 48, 92, 48, 92, 48] ++ tail)
  | c1 :: c2 :: c3 :: c4 :: c5 :: rest =>
    match b85Group [c1, c2, c3, c4, c5], decodeBase85Core rest with
    | some bs, some tail => some (bs ++ tail)
    | _, _ => none
  | chunk => b85Group chunk

/-- part_000 decodeBase85. -/
def decodeBase85 (s : JStr) : Option (List Nat) := decodeBase85Core s

/-- Hex branch of the detection loop: validate, then split the trimmed input
on whitespace and turn each token into the character with the parsed code. -/
def decodeHexString (s : JStr) : JStr :=
  (wsTokens (jsTrim s)).map (fun tok => fromCharCodeVal (jsParseIntHex tok))

/-- Binary branch of the detection loop. -/
def decodeBinaryString (s : JStr) : JStr :=
  (wsTokens (jsTrim s)).map (fun tok => fromCharCodeVal (jsParseIntBin tok))

/-- ASCII-codes branch of the detection loop: decimal parseInt per token. -/
def decodeAsciiCodes (s : JStr) : JStr :=
  (wsTokens (jsTrim s)).map (fun tok => fromCharCodeVal (jsParseIntDec tok))

/-- Modelled from the spec: strict UTF-8 decoding of a byte sequence into
UTF-16 code units, as performed by the host decodeURIComponent on the bytes of
its percent escapes (rejecting truncated, overlong, surrogate and
out-of-range sequences). -/
def utf8Decode : List Nat → Option (List Nat)
  | [] => some []
  | b :: rest =>
    if b < 128 then
      match utf8Decode rest with
      | none => none
      | some out => some (b :: out)
    else if b < 194 then none
    else if b < 224 then
      match rest with
      | c1 :: r2 =>
        if 128 ≤ c1 && c1 ≤ 191 then
          match utf8Decode r2 with
          | none => none
          | some out => some (((b - 192) * 64 + (c1 - 128)) :: out)
        else none
      | _ => none
    else if b < 240 then
      match rest with
      | c1 :: c2 :: r2 =>
        let lo1 : Nat := if b = 224 then 160 else 128
        let hi1 : Nat := if b = 237 then 159 else 191
        if (lo1 ≤ c1 && c1 ≤ hi1) && (128 ≤ c2 && c2 ≤ 191) then
          match utf8Decode r2 with
          | none => none
          | some out => some (((b - 224) * 4096 + (c1 - 128) * 64 + (c2 - 128)) :: out)
        else none
      | _ => none
    else if b < 245 then
      match rest with
      | c1 :: c2 :: c3 :: r2 =>
        let lo1 : Nat := if b = 240 then 144 else 128
        let hi1 : Nat := if b = 244 then 143 else 191
        if (lo1 ≤ c1 && c1 ≤ hi1) && (128 ≤ c2 && c2 ≤ 191) && (128 ≤ c3 && c3 ≤ 191) then
          match utf8Decode r2 with
          | none => none
          | some out =>
            let cp := (b - 240) * 262144 + (c1 - 128) * 4096 + (c2 - 128) * 64 + (c3 - 128)
            some ((55296 + (cp - 65536) / 1024) :: (56320 + (cp - 65536) % 1024) :: out)
        else none
      | _ => none
    else none

/-- Modelled from the spec: percent-escape scanning of the host
decodeURIComponent.  The accumulator collects the bytes of the current run of
percent escapes in reverse; a malformed escape or an invalid UTF-8 run fails,
every other character passes through unchanged. -/
def uriGoAux : List Nat → List Nat → Option (List Nat)
  | acc, 37 :: h1 :: h2 :: rest =>
    if isAsciiHexDigit h1 && isAsciiHexDigit h2 then
      uriGoAux ((hexDigitVal h1 * 16 + hexDigitVal h2) :: acc) rest
    else none
  | _, 37 :: _ => none
  | acc, c :: rest =>
    match utf8Decode acc.reverse, uriGoAux [] rest with
    | some units, some tail => some (units ++ c :: tail)
    | _, _ => none
  | acc, [] => utf8Decode acc.reverse

/-- URL branch of the detection loop, the host decodeURIComponent. -/
def decodeURIComponentModel (s : JStr) : Option (List Nat) := uriGoAux [] s

/-- Morse table of the source, dot 46, dash 45, mapping code strings to
characters (including the slash entry for the word separator). -/
def morsePairs : List (List Nat × Nat) :=
  [([46, 45], 65), ([45, 46, 46, 46], 66), ([45, 46, 45, 46], 67), ([45, 46, 46], 68),
   ([46], 69), ([46, 46, 45, 46], 70), ([45, 45, 46], 71), ([46, 46, 46, 46], 72),
   ([46, 46], 73), ([46, 45, 45, 45], 74), ([45, 46, 45], 75), ([46, 45, 46, 46], 76),
   ([45, 45], 77), ([45, 46], 78), ([45, 45, 45], 79), ([46, 45, 45, 46], 80),
   ([45, 45, 46, 45], 81), ([46, 45, 46], 82), ([46, 46, 46], 83), ([45], 84),
   ([46, 46, 45], 85), ([46, 46, 46, 45], 86), ([46, 45, 45], 87), ([45, 46, 46, 45], 88),
   ([45, 46, 45, 45], 89), ([45, 45, 46, 46], 90),
   ([45, 45, 45, 45, 45], 48), ([46, 45, 45, 45, 45], 49), ([46, 46, 45, 45, 45], 50),
   ([46, 46, 46, 45, 45], 51), ([46, 46, 46, 46, 45], 52), ([46, 46, 46, 46, 46], 53),
   ([45, 46, 46, 46, 46], 54), ([45, 45, 46, 46, 46], 55), ([45, 45, 45, 46, 46], 56),
   ([45, 45, 45, 45, 46], 57), ([47], 32)]

/-- Lookup in the Morse table; an unknown code contributes the empty string. -/
def morseLookup (code : JStr) : JStr :=
  match morsePairs.find? (fun pr => pr.1 == code) with
  | some pr => [pr.2]
  | none => []

/-- part_000 decodeMorse: trim, split on slashes into words, split each
trimmed word on spaces into codes, map through the table, join the letters,
join the words with spaces and trim the result. -/
def decodeMorse (s : JStr) : JStr :=
  jsTrim (List.intercalate [32]
    ((jsSplit 47 (jsTrim s)).map
      (fun w => ((jsSplit 32 (jsTrim w)).map morseLookup).flatten)))

/-- Modelled from the spec: the DOM-based entity decode of the html branch,
restricted to the five entities produced by the html encoder of the source
(lt, gt, amp, quot and the numeric form of the apostrophe).  The fuel is the
input length, which suffices because every step consumes at least one
character. -/
def htmlGoFuel : Nat → List Nat → JStr
  | 0, l => l
  | _ + 1, [] => []
  | f + 1, 38 :: 108 :: 116 :: 59 :: rest => 60 :: htmlGoFuel f rest
  | f + 1, 38 :: 103 :: 116 :: 59 :: rest => 62 :: htmlGoFuel f rest
  | f + 1, 38 :: 97 :: 109 :: 112 :: 59 :: rest => 38 :: htmlGoFuel f rest
  | f + 1, 38 :: 113 :: 117 :: 111 :: 116 :: 59 :: rest => 34 :: htmlGoFuel f rest
  | f + 1, 38 :: 35 :: 51 :: 57 :: 59 :: rest => 39 :: htmlGoFuel f rest
  | f + 1, c :: rest => c :: htmlGoFuel f rest

/-- HTML-entities branch of the detection loop. -/
def decodeHtmlEntities (s : JStr) : JStr := htmlGoFuel s.length s

/-- First replace pass of decodeQuotedPrintable: remove every occurrence of
the five-character sequence equals, backslash, r, backslash, n (the source
regexp contains the literal escaped backslashes). -/
def qpStripBreaks : List Nat → List Nat
  | 61 :: 92 :: 114 :: 92 :: 110 :: rest => qpStripBreaks rest
  | c :: rest => c :: qpStripBreaks rest
  | [] => []

/-- Second replace pass of decodeQuotedPrintable: turn every equals sign
followed by two hexadecimal digits into the character with that code. -/
def qpUnescape : List Nat → List Nat
  | 61 :: h1 :: h2 :: rest =>
    if isAsciiHexDigit h1 && isAsciiHexDigit h2 then
      (hexDigitVal h1 * 16 + hexDigitVal h2) :: qpUnescape rest
    else 61 :: qpUnescape (h1 :: h2 :: rest)
  | c :: rest => c :: qpUnescape rest
  | [] => []

/-- part_000 decodeQuotedPrintable. -/
def decodeQuotedPrintable (s : JStr) : JStr := qpUnescape (qpStripBreaks s)

/-- Modelled from the spec: inflation of a gzip stream by the host
DecompressionStream.  No input considered in this development carries a valid
gzip stream, so inflation is modelled as failing. -/
def gzipInflate (_ : List Nat) : Option JStr := none

/-- Compression branch of the detection loop: base64-decode with atob, then
inflate. -/
def decompressLZ (s : JStr) : Option JStr :=
  match jsAtob s with
  | none => none
  | some bytes => gzipInflate bytes

/-- ROT13 of a single character, applied by the source to the regexp matches
[a-zA-Z] only; other characters pass through. -/
def rot13Char (c : Nat) : Nat :=
  if 65 ≤ c && c ≤ 90 then (c - 65 + 13) % 26 + 65
  else if 97 ≤ c && c ≤ 122 then (c - 97 + 13) % 26 + 97
  else c

/-- ROT13 branch of the detection loop. -/
def rot13 (s : JStr) : JStr := s.map rot13Char

/-- Modelled from the spec: the JSON.parse / JSON.stringify reformatting that
decodeJWT applies to the decoded payload is host functionality outside the
repository; it is modelled as failing, and no claim settled here depends on a
successful JWT payload parse. -/
def jsonStringifyParse (_ : List Nat) : Option JStr := none

/-- Base64url to standard alphabet character mapping of decodeJWT. -/
def base64UrlToStd (c : Nat) : Nat := if c = 45 then 43 else if c = 95 then 47 else c

/-- part_000 decodeJWT: exactly three dot-separated segments, base64url
payload converted to the standard alphabet, padded to a multiple of four,
atob-decoded and JSON-reformatted. -/
def decodeJWT (token : JStr) : Option JStr :=
  let parts := jsSplit 46 token
  if parts.length ≠ 3 then none
  else
    let payload := (parts.getD 1 []).map base64UrlToStd
    let padding := List.replicate ((4 - payload.length % 4) % 4) 61
    match jsAtob (payload ++ padding) with
    | none => none
    | some bytes => jsonStringifyParse bytes

/-! ## Detection engine: configuration, confidence and the detection loop -/

/-- Encoding types tried by detectAndDecode, in no particular order here;
the trial order is encodingOrder below. -/
inductive EncType
  | jwt
  | base64
  | base32
  | base85
  | hex
  | binary
  | url
  | morse
  | ascii
  | html
  | qp
  | compress
  | rot13
deriving DecidableEq, Repr

/-- The three sensitivity tiers of the settings. -/
inductive Sensitivity
  | strict
  | medium
  | loose
deriving DecidableEq, Repr

/-- The fields of appState.settings consumed by the detection loop (the
strictValidation and showConfidence fields only affect logging and display
and are omitted). -/
structure Settings where
  autoDetect : Bool
  detectionSensitivity : Sensitivity
  enabledEncodings : List EncType
deriving DecidableEq, Repr

/-- Default settings of the source: auto-detect on, medium sensitivity, all
encodings enabled (empty list). -/
def defaultSettings : Settings := ⟨true, .medium, []⟩

/-- Default settings with the sensitivity raised to strict. -/
def strictSettings : Settings := ⟨true, .strict, []⟩

/-- Minimum-confidence threshold (in tenths) that the source associates with
each sensitivity tier: strict 0.8, medium 0.5, loose 0.2. -/
def minConfidenceOf : Sensitivity → Nat
  | .strict => 8
  | .medium => 5
  | .loose => 2

/-- part_000 DetectionEngine.shouldAttemptDecoding: reject when auto-detect is
off or the type is excluded by a non-empty enabled list; the minimum
confidence for the configured sensitivity is computed but never used
afterwards (a dead local of the source, kept here verbatim); then a cheap
format pre-check for five of the types, defaulting to true. -/
def shouldAttemptDecoding (input : JStr) (t : EncType) (st : Settings) : Bool :=
  if !st.autoDetect then false
  else if !st.enabledEncodings.isEmpty && !(st.enabledEncodings.contains t) then false
  else
    let _minConfidence := minConfidenceOf st.detectionSensitivity
    match t with
    | .base64 => base64Shape input && input.length % 4 == 0
    | .hex => hexPairsPlus (jsTrim input)
    | .binary => binGroupsPlus (jsTrim input)
    | .url => input.contains 37 && hasPctHex input
    | .morse => morseClassTest input
    | _ => true

/-- The test closures of the encodingTests list of detectAndDecode. -/
def encodingTest (input : JStr) (t : EncType) : Bool :=
  match t with
  | .jwt => input.contains 46 && (jsSplit 46 input).length == 3
  | .base64 => base64Shape input && input.length % 4 == 0
  | .base32 => base32ClassTest input
  | .base85 => base85ClassTest input
  | .hex => hexPairsPlus (jsTrim input)
  | .binary => binGroupsPlus (jsTrim input)
  | .url => input.contains 37 && hasPctHex input
  | .morse => morseClassTest input
  | .ascii => asciiGroupsPlus (jsTrim input)
  | .html => input.contains 38 && input.contains 59
  | .qp => input.contains 61 && hasEqHex input
  | .compress => base64Shape input
  | .rot13 => input.any isAsciiLetter

/-- Dispatch of the decode switch of detectAndDecode.  The hex, binary and
base64 branches run the input validator first; a thrown error anywhere is
none. -/
def decodeFor (t : EncType) (input : JStr) : Option JStr :=
  match t with
  | .jwt => decodeJWT input
  | .base64 => if validateBase64 input then jsAtob input else none
  | .base32 => decodeBase32 input
  | .base85 => decodeBase85 input
  | .hex => if validateHex input then some (decodeHexString input) else none
  | .binary => if validateBinary input then some (decodeBinaryString input) else none
  | .url => decodeURIComponentModel input
  | .morse => some (decodeMorse input)
  | .ascii => some (decodeAsciiCodes input)
  | .html => some (decodeHtmlEntities input)
  | .qp => some (decodeQuotedPrintable input)
  | .compress => decompressLZ input
  | .rot13 => some (rot13 input)

/-- Type-specific structural bonus of calculateConfidence, in tenths. -/
def typeBonus (input : JStr) (t : EncType) : Nat :=
  match t with
  | .base64 => if input.length % 4 == 0 && base64Shape input then 3 else 0
  | .hex => if hexPairsPlus (jsTrim input) then 3 else 0
  | .url => if input.contains 37 && hasPctHex input then 2 else 0
  | .morse => if morseClassTest input && input.contains 46 && input.contains 45 then 3 else 0
  | _ => 0

/-- The printable-result class of calculateConfidence, the regexp of printable
ASCII or whitespace repeated. -/
def isPrintableOrWs (c : Nat) : Bool := (32 ≤ c && c ≤ 126) || isJsWhitespace c

/-- part_000 DetectionEngine.calculateConfidence, in tenths: zero for an empty
or unchanged result, otherwise base 5 plus length bonuses, the type bonus and
the printable-result bonus, clamped at 10. -/
def calculateConfidence (input result : JStr) (t : EncType) : Nat :=
  if result.isEmpty || result == input then 0
  else
    min (5 + (if input.length > 10 then 1 else 0) + (if input.length > 50 then 1 else 0)
      + typeBonus input t + (if result.all isPrintableOrWs then 1 else 0)) 10

/-- One recorded candidate of the detection loop. -/
structure DetectionResult where
  result : JStr
  otype : EncType
  confidence : Nat
deriving DecidableEq, Repr

/-- Accumulator of the detection loop: the running best candidate with its
confidence (initially null and zero) and the list of recorded results. -/
structure DetectState where
  bestResult : Option (JStr × EncType)
  bestConfidence : Nat
  results : List DetectionResult
deriving DecidableEq, Repr

/-- One iteration of the detection loop of detectAndDecode: skip when the
pre-check or the test closure fails or the decode throws; record the result
when it is non-empty and differs from the input, and take it as the new best
when its confidence strictly exceeds the running maximum. -/
def detectStep (input : JStr) (st : Settings) (s : DetectState) (t : EncType) : DetectState :=
  if !(shouldAttemptDecoding input t st) then s
  else if !(encodingTest input t) then s
  else
    match decodeFor t input with
    | none => s
    | some result =>
      if !result.isEmpty && result != input then
        let conf := calculateConfidence input result t
        let s2 : DetectState :=
          ⟨s.bestResult, s.bestConfidence, s.results ++ [⟨result, t, conf⟩]⟩
        if conf > s.bestConfidence then ⟨some (result, t), conf, s2.results⟩ else s2
      else s

/-- The trial order of the encodingTests list of detectAndDecode. -/
def encodingOrder : List EncType :=
  [.jwt, .base64, .base32, .base85, .hex, .binary, .url, .morse, .ascii, .html,
   .qp, .compress, .rot13]

/-- Failure of the size validation of detectAndDecode. -/
inductive DetectError
  | inputTooLarge
deriving DecidableEq, Repr

/-- part_000 detectAndDecode: an input with empty trim returns without
scanning; an input over the 1MB limit fails; otherwise the loop runs over the
thirteen candidate types in order. -/
def detectAndDecode (input : JStr) (st : Settings) : Except DetectError DetectState :=
  if (jsTrim input).isEmpty then .ok ⟨none, 0, []⟩
  else if input.length > 1048576 then .error .inputTooLarge
  else .ok (encodingOrder.foldl (detectStep input st) ⟨none, 0, []⟩)

/-! ## Claim C2 -/

set_option maxHeartbeats 1000000 in
/-- C2: the sensitivity thresholds are computed but never enforced.  On the
input "uryyb jbeyq" under strict sensitivity the only successful decode is
ROT13 with confidence 0.7, below the strict threshold 0.8, yet the loop still
records it and returns it as the best result instead of yielding no match. -/
theorem strict_threshold_not_enforced :
    minConfidenceOf Sensitivity.strict = 8 ∧
    detectAndDecode (strCodes "uryyb jbeyq") strictSettings =
      .ok ⟨some (strCodes "hello world", .rot13), 7,
        [⟨strCodes "hello world", .rot13, 7⟩]⟩ ∧
    7 < 8 :=
  ⟨rfl, by decide, by decide⟩

/-! ## Claim C8 -/

set_option maxHeartbeats 1000000 in
/-- C8: detection on "SGVsbG8=" with the default configuration returns the
base64 candidate decoding to "Hello" as the best result, with confidence 0.9,
which is at least the 0.5 of the claim. -/
theorem base64_detection_scenario :
    ∃ out, detectAndDecode (strCodes "SGVsbG8=") defaultSettings = .ok out ∧
      out.bestResult = some (strCodes "Hello", .base64) ∧
      out.bestConfidence = 9 ∧ 5 ≤ out.bestConfidence := by
  refine ⟨⟨some (strCodes "Hello", .base64), 9,
    [⟨strCodes "Hello", .base64, 9⟩,
     ⟨[87, 183, 239, 38, 0, 1], .base85, 5⟩,
     ⟨strCodes "FTIfoT8=", .rot13, 6⟩]⟩, by decide, by decide, by decide, by decide⟩

/-! ## Claim C9 -/

/-- Invariant used for the identity-filter claim: no recorded result and no
best candidate carries the given type. -/
def NoType (t : EncType) (s : DetectState) : Prop :=
  (∀ r ∈ s.results, r.otype ≠ t) ∧
  (∀ res ty, s.bestResult = some (res, ty) → ty ≠ t)

/-- One loop iteration preserves the invariant when the decode of the given
type returns the input unchanged: for that type the recording guard fails,
and every other type records a differently-tagged result. -/
theorem detectStep_noType (input : JStr) (st : Settings) (t : EncType)
    (hid : decodeFor t input = some input) (s : DetectState) (u : EncType)
    (hs : NoType t s) : NoType t (detectStep input st s u) := by
  cases hsa : shouldAttemptDecoding input u st with
  | false => simpa [detectStep, hsa] using hs
  | true =>
    cases het : encodingTest input u with
    | false => simpa [detectStep, hsa, het] using hs
    | true =>
      cases hdec : decodeFor u input with
      | none => simpa [detectStep, hsa, het, hdec] using hs
      | some result =>
        by_cases hguard : (!result.isEmpty && result != input) = true
        · have hut : u ≠ t := by
            intro hT
            subst hT
            rw [hid] at hdec
            injection hdec with hres
            subst hres
            simp at hguard
          have hrec : ∀ r ∈ s.results ++ [⟨result, u, calculateConfidence input result u⟩],
              r.otype ≠ t := by
            intro r hr
            rcases List.mem_append.1 hr with h | h
            · exact hs.1 r h
            · simp at h
              subst h
              exact hut
          by_cases hc : calculateConfidence input result u > s.bestConfidence
          · have : detectStep input st s u =
                ⟨some (result, u), calculateConfidence input result u,
                  s.results ++ [⟨result, u, calculateConfidence input result u⟩]⟩ := by
              simp [detectStep, hsa, het, hdec, hguard, hc]
            rw [this]
            refine ⟨hrec, ?_⟩
            intro res ty hty
            injection hty with hpair
            have hty2 : ty = u := (congrArg Prod.snd hpair.symm : _)
            rw [hty2]
            exact hut
          · have : detectStep input st s u =
                ⟨s.bestResult, s.bestConfidence,
                  s.results ++ [⟨result, u, calculateConfidence input result u⟩]⟩ := by
              simp [detectStep, hsa, het, hdec, hguard, hc]
            rw [this]
            exact ⟨hrec, hs.2⟩
        · simpa [detectStep, hsa, het, hdec, hguard] using hs

/-- C9: if a codec decodes the input to the input itself, no detection result
for that codec is recorded and it is never selected as the best result. -/
theorem identity_decode_never_recorded (input : JStr) (st : Settings) (t : EncType)
    (hid : decodeFor t input = some input) (out : DetectState)
    (hout : detectAndDecode input st = .ok out) :
    (∀ r ∈ out.results, r.otype ≠ t) ∧
    (∀ res ty, out.bestResult = some (res, ty) → ty ≠ t) := by
  have hfold : ∀ (l : List EncType) (s : DetectState), NoType t s →
      NoType t (l.foldl (detectStep input st) s) := by
    intro l
    induction l with
    | nil => intro s hs; exact hs
    | cons x xs ih => intro s hs; exact ih _ (detectStep_noType input st t hid s x hs)
  have hinit : NoType t (⟨none, 0, []⟩ : DetectState) := ⟨by simp, by simp⟩
  unfold detectAndDecode at hout
  by_cases h1 : (jsTrim input).isEmpty
  · rw [if_pos h1] at hout
    injection hout with hout
    rw [← hout]
    exact hinit
  · rw [if_neg h1] at hout
    by_cases h2 : input.length > 1048576
    · rw [if_pos h2] at hout
      cases hout
    · rw [if_neg h2] at hout
      injection hout with hout
      rw [← hout]
      exact hfold encodingOrder _ hinit

/-- Concrete outcome of the detection run on "123" with the defaults. -/
def out123 : DetectState :=
  ⟨some ([123], .ascii), 6, [⟨[0, 0], .base85, 5⟩, ⟨[123], .ascii, 6⟩]⟩

set_option maxHeartbeats 1000000 in
/-- Witness for C9: ROT13 leaves "123" unchanged, and the detection run on
"123" records no ROT13 result and does not select ROT13 as best. -/
theorem identity_decode_never_recorded_witness :
    decodeFor .rot13 (strCodes "123") = some (strCodes "123") ∧
    (∀ r ∈ out123.results, r.otype ≠ EncType.rot13) ∧
    (∀ res ty, out123.bestResult = some (res, ty) → ty ≠ EncType.rot13) :=
  ⟨by decide,
    identity_decode_never_recorded (strCodes "123") defaultSettings .rot13 (by decide)
      out123 (by decide)⟩

end Encoder
